import Mathlib

/-
Verification of the player IPC controller of `src/server.py` (PlaySV Ultimate).

The embedding models:
  * the JSON codec used on the wire (`json.dumps(cmd) + '\n'` outbound and
    `json.loads(response)` inbound), as the functions `rjson` / `encode` and
    `parseVal` / `jsonLoads` over an inductive `Json` value type;
  * the `MPVController` class (`connect`, `send_command`, and the facade
    methods `play`, `pause`, `resume`, `stop`, `seek`, `set_volume`,
    `get_property`) as explicit state passing over a `Ctrl` record, with the
    behaviour of the operating-system socket abstracted into a `Transport`
    record (does the endpoint path exist, does `connect` raise, does
    `sendall` raise, and what `recv` yields) and an event trace recording
    every interaction with the socket;
  * the `handle_mpv_command` WebSocket handler, which dispatches on the
    client's command name and emits a `command_result` payload
    whose `success` field is `result is not None`.

Modelling conventions: Python byte strings are modelled as `String`
(UTF-8 encoding of text is injective, so nothing is lost); a raised and
caught exception is modelled by the branch the `except` handler takes;
`Json.float m e` stands for the Python float with exact decimal value
m / 10 ^ (e + 1), i.e. the floats whose `repr` is a plain decimal with
e + 1 fractional digits (the only floats the wire format of this program
exchanges); `json.loads` is modelled on the JSON grammar without exponent
notation, which covers every record this program encodes or decodes.
-/

namespace PlaySV

/-- JSON values, as produced by Python's `json` module for the shapes this
program exchanges.  `float m e` denotes the decimal m / 10 ^ (e + 1).
Objects are association lists in insertion order. -/
inductive Json where
  | null : Json
  | bool (b : Bool) : Json
  | int (n : Int) : Json
  | float (m : Int) (e : Nat) : Json
  | str (s : String) : Json
  | arr (elems : List Json) : Json
  | obj (members : List (String × Json)) : Json

/-- Decimal digit character for n < 10. -/
def digitChar (n : Nat) : Char := Char.ofNat (48 + n)

/-- Worker for `natChars`: peel decimal digits into the accumulator.  The
fuel only bounds the digit count, which `n + 1` always covers. -/
def natCharsAux : Nat → Nat → List Char → List Char
  | 0, _, acc => acc
  | fuel + 1, n, acc =>
    if n < 10 then digitChar n :: acc
    else natCharsAux fuel (n / 10) (digitChar (n % 10) :: acc)

/-- Decimal rendering of a natural number (most significant digit first). -/
def natChars (n : Nat) : List Char := natCharsAux (n + 1) n []

/-- Decimal rendering of n padded with leading zeros to width `len`. -/
def natCharsPad (len n : Nat) : List Char :=
  List.replicate (len - (natChars n).length) '0' ++ natChars n

/-- Decimal rendering of an integer, as Python's `repr`. -/
def intChars (n : Int) : List Char :=
  if n < 0 then '-' :: natChars n.natAbs else natChars n.natAbs

/-- Rendering of the float m / 10 ^ (e + 1) with exactly e + 1 fractional
digits, as Python's `repr` of such a float. -/
def floatChars (m : Int) (e : Nat) : List Char :=
  (if m < 0 then ['-'] else []) ++
    natChars (m.natAbs / 10 ^ (e + 1)) ++
    '.' :: natCharsPad (e + 1) (m.natAbs % 10 ^ (e + 1))

/-- Lower-case hexadecimal digit character for n < 16. -/
def hexDigitChar (n : Nat) : Char :=
  if n < 10 then digitChar n else Char.ofNat (87 + n)

/-- Four-digit lower-case hexadecimal rendering, as Python's `\u%04x`. -/
def hex4Chars (n : Nat) : List Char :=
  [hexDigitChar (n / 4096 % 16), hexDigitChar (n / 256 % 16),
   hexDigitChar (n / 16 % 16), hexDigitChar (n % 16)]

/-- JSON string escaping of one character, following
`json.encoder.py_encode_basestring_ascii` (the default `ensure_ascii=True`
encoder): the two-character escapes for the backslash, the quote and the
common control characters, printable ASCII verbatim, and `\uXXXX`
(a surrogate pair above U+FFFF) for everything else. -/
def escapeChar (c : Char) : List Char :=
  if c = '"' then ['\\', '"']
  else if c = '\\' then ['\\', '\\']
  else if c = '\x08' then ['\\', 'b']
  else if c = '\x0c' then ['\\', 'f']
  else if c = '\n' then ['\\', 'n']
  else if c = '\r' then ['\\', 'r']
  else if c = '\t' then ['\\', 't']
  else if 0x20 ≤ c.toNat && c.toNat ≤ 0x7E then [c]
  else if c.toNat < 0x10000 then '\\' :: 'u' :: hex4Chars c.toNat
  else
    ('\\' :: 'u' :: hex4Chars (0xD800 + (c.toNat - 0x10000) / 0x400)) ++
    ('\\' :: 'u' :: hex4Chars (0xDC00 + (c.toNat - 0x10000) % 0x400))

/-- Escaping of a whole string body. -/
def escList (cs : List Char) : List Char := cs.flatMap escapeChar

/-- A JSON string literal: quote, escaped body, quote. -/
def strChars (s : String) : List Char := '"' :: (escList s.data ++ ['"'])

mutual

/-- `json.dumps` with its default separators `, ` and `: `, as a character
list. -/
def rjson : Json → List Char
  | .null => "null".data
  | .bool true => "true".data
  | .bool false => "false".data
  | .int n => intChars n
  | .float m e => floatChars m e
  | .str s => strChars s
  | .arr [] => ['[', ']']
  | .arr (x :: xs) => '[' :: (rjson x ++ rtail xs)
  | .obj [] => ['\x7b', '\x7d']
  | .obj ((k, v) :: ms) =>
    '\x7b' :: (strChars k ++ ':' :: ' ' :: (rjson v ++ rmtail ms))

/-- Rendering of the remaining elements of an array, including the closing
bracket. -/
def rtail : List Json → List Char
  | [] => [']']
  | x :: xs => ',' :: ' ' :: (rjson x ++ rtail xs)

/-- Rendering of the remaining members of an object, including the closing
brace. -/
def rmtail : List (String × Json) → List Char
  | [] => ['\x7d']
  | (k, v) :: ms => ',' :: ' ' :: (strChars k ++ ':' :: ' ' :: (rjson v ++ rmtail ms))

end

/-- `json.dumps` as a `String`. -/
def Json.render (j : Json) : String := String.mk (rjson j)

/-- Command argument values the program puts on the wire: the Python
values `str`, `int`, `float`, `bool` (spec section 3's tagged union). -/
inductive Arg where
  | str (s : String) : Arg
  | int (n : Int) : Arg
  | float (m : Int) (e : Nat) : Arg
  | bool (b : Bool) : Arg

/-- The JSON value an argument serializes as. -/
def Arg.toJson : Arg → Json
  | .str s => .str s
  | .int n => .int n
  | .float m e => .float m e
  | .bool b => .bool b

/-- The record `send_command` builds at line 82:
`cmd = {'command': [command] + list(args)}`. -/
def cmdJson (command : String) (args : List Arg) : Json :=
  .obj [("command", .arr (.str command :: args.map Arg.toJson))]

/-- Line 83: `cmd_json = json.dumps(cmd) + '\n'`. -/
def encode (command : String) (args : List Arg) : String :=
  String.mk (rjson (cmdJson command args) ++ ['\n'])

/-- JSON whitespace. -/
def isWsChar (c : Char) : Bool := c = ' ' || c = '\t' || c = '\n' || c = '\r'

/-- Drop leading JSON whitespace. -/
def skipWs : List Char → List Char
  | [] => []
  | c :: cs => if isWsChar c then skipWs cs else c :: cs

/-- Numeric value of a decimal digit character. -/
def digitVal (c : Char) : Nat := c.toNat - 48

/-- Split a maximal run of decimal digits off the front. -/
def takeDigits : List Char → List Char × List Char
  | [] => ([], [])
  | c :: cs =>
    if c.isDigit then
      let p := takeDigits cs
      (c :: p.1, p.2)
    else ([], c :: cs)

/-- Value of a digit run, most significant first. -/
def digitsToNat (ds : List Char) : Nat :=
  ds.foldl (fun a c => a * 10 + digitVal c) 0

/-- Value of one hexadecimal digit character, upper or lower case. -/
def hexVal (c : Char) : Option Nat :=
  if c.isDigit then some (digitVal c)
  else if 'a' ≤ c && c ≤ 'f' then some (c.toNat - 87)
  else if 'A' ≤ c && c ≤ 'F' then some (c.toNat - 55)
  else none

/-- Parse exactly four hexadecimal digits. -/
def parseHex4 : List Char → Option (Nat × List Char)
  | a :: b :: c :: d :: rest =>
    match hexVal a, hexVal b, hexVal c, hexVal d with
    | some va, some vb, some vc, some vd =>
      some (va * 4096 + vb * 256 + vc * 16 + vd, rest)
    | _, _, _, _ => none
  | _ => none

/-- After a high-surrogate `\uXXXX`, parse the low-surrogate escape that
must follow and recombine the pair into the scalar value it encodes. -/
def parseLowSurrogate (hi : Nat) (rest : List Char) : Option (Char × List Char) :=
  match rest with
  | '\\' :: 'u' :: rest2 =>
    (parseHex4 rest2).bind (fun lp =>
      if 0xDC00 ≤ lp.1 && lp.1 < 0xE000 then
        some (Char.ofNat (0x10000 + (hi - 0xD800) * 0x400 + (lp.1 - 0xDC00)), lp.2)
      else none)
  | _ => none

/-- Parse the hexadecimal part of a `\u` escape, recombining a
surrogate pair into the scalar value it encodes. -/
def parseUnicodeEscape (cs : List Char) : Option (Char × List Char) :=
  (parseHex4 cs).bind (fun hp =>
    if hp.1 < 0xD800 || 0xE000 ≤ hp.1 then some (Char.ofNat hp.1, hp.2)
    else if hp.1 < 0xDC00 then parseLowSurrogate hp.1 hp.2
    else none)

/-- Decode one escape sequence after the backslash: the character it
denotes and the remainder. -/
def parseEscape : List Char → Option (Char × List Char)
  | [] => none
  | e :: cs2 =>
    if e = '"' then some ('"', cs2)
    else if e = '\\' then some ('\\', cs2)
    else if e = '/' then some ('/', cs2)
    else if e = 'b' then some ('\x08', cs2)
    else if e = 'f' then some ('\x0c', cs2)
    else if e = 'n' then some ('\n', cs2)
    else if e = 'r' then some ('\r', cs2)
    else if e = 't' then some ('\t', cs2)
    else if e = 'u' then parseUnicodeEscape cs2
    else none

/-- Parse a JSON string body after the opening quote, up to and including
the closing quote; yields the unescaped characters. -/
def parseStringBody : Nat → List Char → Option (List Char × List Char)
  | 0, _ => none
  | _, [] => none
  | fuel + 1, c :: cs =>
    if c = '"' then some ([], cs)
    else if c = '\\' then
      (parseEscape cs).bind (fun q =>
        (parseStringBody fuel q.2).map (fun p => (q.1 :: p.1, p.2)))
    else (parseStringBody fuel cs).map (fun p => (c :: p.1, p.2))

/-- Parse an unsigned JSON number: digits, optionally followed by a point
and fractional digits.  A fractional literal with d digits becomes
`Json.float` with mantissa and d, matching the decimal it denotes. -/
def parsePosNumber (cs : List Char) : Option (Json × List Char) :=
  let p := takeDigits cs
  if p.1 = [] then none
  else
    match p.2 with
    | '.' :: cs2 =>
      let q := takeDigits cs2
      if q.1 = [] then none
      else
        some (.float (Int.ofNat (digitsToNat p.1 * 10 ^ q.1.length + digitsToNat q.1))
                (q.1.length - 1), q.2)
    | rest => some (.int (Int.ofNat (digitsToNat p.1)), rest)

/-- Parse a JSON number with its optional leading minus sign. -/
def parseNumber (cs : List Char) : Option (Json × List Char) :=
  match cs with
  | '-' :: cs1 =>
    (parsePosNumber cs1).bind (fun p =>
      match p.1 with
      | .int n => some (.int (-n), p.2)
      | .float m e => some (.float (-m) e, p.2)
      | _ => none)
  | _ => parsePosNumber cs

mutual

/-- Recursive-descent parser for one JSON value, modelling `json.loads`
on the grammar this program exchanges.  The fuel only bounds nesting; at
least one character is consumed before each recursive call, so
`length + 1` fuel never runs out. -/
def parseVal : Nat → List Char → Option (Json × List Char)
  | 0, _ => none
  | fuel + 1, cs =>
    match skipWs cs with
    | [] => none
    | c :: rest =>
      if c = '\x7b' then
        match skipWs rest with
        | '\x7d' :: r => some (.obj [], r)
        | '"' :: r =>
          (parseStringBody fuel r).bind (fun kp =>
            match skipWs kp.2 with
            | ':' :: r2 =>
              (parseVal fuel r2).bind (fun vp =>
                (parseMembersTail fuel vp.2).map (fun mp =>
                  (.obj ((String.mk kp.1, vp.1) :: mp.1), mp.2)))
            | _ => none)
        | _ => none
      else if c = '[' then
        match skipWs rest with
        | ']' :: r => some (.arr [], r)
        | cs2 =>
          (parseVal fuel cs2).bind (fun vp =>
            (parseElemsTail fuel vp.2).map (fun tp =>
              (.arr (vp.1 :: tp.1), tp.2)))
      else if c = '"' then
        (parseStringBody fuel rest).map (fun p => (.str (String.mk p.1), p.2))
      else if c = 't' then
        match rest with
        | 'r' :: 'u' :: 'e' :: r => some (.bool true, r)
        | _ => none
      else if c = 'f' then
        match rest with
        | 'a' :: 'l' :: 's' :: 'e' :: r => some (.bool false, r)
        | _ => none
      else if c = 'n' then
        match rest with
        | 'u' :: 'l' :: 'l' :: r => some (.null, r)
        | _ => none
      else parseNumber (c :: rest)

/-- Parse the elements after the first element of an array, through the
closing bracket. -/
def parseElemsTail : Nat → List Char → Option (List Json × List Char)
  | 0, _ => none
  | fuel + 1, cs =>
    match skipWs cs with
    | ']' :: r => some ([], r)
    | ',' :: r =>
      (parseVal fuel r).bind (fun vp =>
        (parseElemsTail fuel vp.2).map (fun tp => (vp.1 :: tp.1, tp.2)))
    | _ => none

/-- Parse the members after the first member of an object, through the
closing brace. -/
def parseMembersTail : Nat → List Char → Option (List (String × Json) × List Char)
  | 0, _ => none
  | fuel + 1, cs =>
    match skipWs cs with
    | '\x7d' :: r => some ([], r)
    | ',' :: r =>
      match skipWs r with
      | '"' :: r1 =>
        (parseStringBody fuel r1).bind (fun kp =>
          match skipWs kp.2 with
          | ':' :: r3 =>
            (parseVal fuel r3).bind (fun vp =>
              (parseMembersTail fuel vp.2).map (fun mp =>
                ((String.mk kp.1, vp.1) :: mp.1, mp.2)))
          | _ => none)
      | _ => none
    | _ => none

end

/-- `json.loads`: parse one complete JSON document; anything but trailing
whitespace after the value is an error (Python raises `JSONDecodeError`,
which `send_command` catches). -/
def jsonLoads (s : String) : Option Json :=
  match parseVal (s.data.length + 1) s.data with
  | some (v, rest) => if skipWs rest = [] then some v else none
  | none => none

/-- The remainder after a number literal must not start with a character
that would extend the literal (a digit or a decimal point). -/
def numBoundary : List Char → Prop
  | [] => True
  | c :: _ => c.isDigit = false ∧ c ≠ '.'

mutual

/-- Fuel sufficient for `parseVal` to parse the rendering of a value. -/
def jsize : Json → Nat
  | .null => 1
  | .bool _ => 1
  | .int _ => 1
  | .float _ _ => 1
  | .str s => s.data.length + 2
  | .arr [] => 1
  | .arr (x :: xs) => 1 + jsize x + ltsize xs
  | .obj [] => 1
  | .obj ((k, v) :: ms) => 1 + (k.data.length + 2) + jsize v + mtsize ms

/-- Fuel sufficient for `parseElemsTail` on a rendered element tail. -/
def ltsize : List Json → Nat
  | [] => 1
  | x :: xs => 1 + jsize x + ltsize xs

/-- Fuel sufficient for `parseMembersTail` on a rendered member tail. -/
def mtsize : List (String × Json) → Nat
  | [] => 1
  | (k, v) :: ms => 1 + (k.data.length + 2) + jsize v + mtsize ms

end

/-- One observable interaction of `MPVController` with the socket:
`socket.connect` being invoked, `sendall` of the given bytes, or `recv`. -/
inductive Ev where
  | connAttempt : Ev
  | send (bytes : String) : Ev
  | recv : Ev

/-- Whether an event is a write of bytes to the player. -/
def Ev.isSend : Ev → Bool
  | .send _ => true
  | _ => false

/-- The environment of one `send_command` call: does
`os.path.exists(socket_path)` hold, does `socket.connect` succeed, does
`sendall` succeed, and what `recv` yields (`none` when `recv` or UTF-8
decoding raises; `some ""` is the empty read of a closed peer). -/
structure Transport where
  pathExists : Bool
  connectOk : Bool
  sendOk : Bool
  recvResult : Option String

/-- The controller's own mutable state: `self.connected` (line 57). -/
structure Ctrl where
  connected : Bool

namespace MPVController

/-- Lines 59-73, `MPVController.connect`: if the socket path exists, try
to connect (setting `self.connected = True` on success, leaving state
untouched when the attempt raises); if the path is missing, return
`False` without touching the socket. -/
def connect (c : Ctrl) (t : Transport) : Bool × Ctrl × List Ev :=
  if t.pathExists then
    if t.connectOk then (true, ⟨true⟩, [Ev.connAttempt])
    else (false, c, [Ev.connAttempt])
  else (false, c, [])

/-- Lines 81-92, the `try` block of `send_command`: encode, `sendall`,
`recv`, `json.loads`.  Any exception is caught by the handler at line 89,
which sets `self.connected = False` and returns `None`; an empty read
returns `None` via `json.loads(response) if response else None` without
entering the handler. -/
def send_body (c : Ctrl) (t : Transport) (command : String) (args : List Arg)
    (tr : List Ev) : Option Json × Ctrl × List Ev :=
  let bytes := encode command args
  if t.sendOk then
    let tr2 := tr ++ [Ev.send bytes, Ev.recv]
    match t.recvResult with
    | none => (none, ⟨false⟩, tr2)
    | some resp =>
      if resp = "" then (none, c, tr2)
      else
        match jsonLoads resp with
        | some j => (some j, c, tr2)
        | none => (none, ⟨false⟩, tr2)
  else (none, ⟨false⟩, tr ++ [Ev.send bytes])

/-- Lines 75-92, `MPVController.send_command`: lazily connect when
disconnected, returning `None` when the connect fails, then run the
encode/send/recv/decode body.  The result is the returned value, the
controller state after the call, and the socket interaction trace. -/
def send_command (c : Ctrl) (t : Transport) (command : String)
    (args : List Arg) : Option Json × Ctrl × List Ev :=
  if c.connected then send_body c t command args []
  else
    match connect c t with
    | (true, c1, tr) => send_body c1 t command args tr
    | (false, c1, tr) => (none, c1, tr)

/-- Line 94-96: `play`. -/
def play (c : Ctrl) (t : Transport) (file_path : String) :
    Option Json × Ctrl × List Ev :=
  send_command c t "loadfile" [Arg.str file_path]

/-- Line 98-100: `pause`. -/
def pause (c : Ctrl) (t : Transport) : Option Json × Ctrl × List Ev :=
  send_command c t "set_property" [Arg.str "pause", Arg.bool true]

/-- Line 102-104: `resume`. -/
def resume (c : Ctrl) (t : Transport) : Option Json × Ctrl × List Ev :=
  send_command c t "set_property" [Arg.str "pause", Arg.bool false]

/-- Line 106-108: `stop`. -/
def stop (c : Ctrl) (t : Transport) : Option Json × Ctrl × List Ev :=
  send_command c t "stop" []

/-- Line 110-112: `seek`. -/
def seek (c : Ctrl) (t : Transport) (seconds : Int) :
    Option Json × Ctrl × List Ev :=
  send_command c t "seek" [Arg.int seconds]

/-- Lines 114-116: `set_volume` forwards the integer volume directly to
`set_property`. -/
def set_volume (c : Ctrl) (t : Transport) (volume : Int) :
    Option Json × Ctrl × List Ev :=
  send_command c t "set_property" [Arg.str "volume", Arg.int volume]

/-- Lines 118-120: `get_property`. -/
def get_property (c : Ctrl) (t : Transport) (property_name : String) :
    Option Json × Ctrl × List Ev :=
  send_command c t "get_property" [Arg.str property_name]

end MPVController

/-- The `video` object of a `play` message, as read by
`handle_mpv_command` (`video.get('path')`, `video.get('title')`). -/
structure Video where
  path : String
  title : String

/-- The `args` object of an `mpv_command` message; absent keys are `none`
and the handler's `.get` defaults apply. -/
structure MsgArgs where
  video : Option Video := none
  value : Option Int := none
  seconds : Option Int := none

/-- The `player_status` broadcast payloads the handler emits. -/
inductive StatusEmit where
  | playing (title : String) : StatusEmit
  | paused (b : Bool) : StatusEmit
  | stopped : StatusEmit
  | volume (v : Int) : StatusEmit

/-- The `command_result` payload emitted at line 310:
`{'success': result is not None, 'command': command}`. -/
structure CommandResult where
  success : Bool
  command : String

/-- Everything observable about one `handle_mpv_command` invocation. -/
structure HandlerOut where
  result : Option Json
  ctrl : Ctrl
  trace : List Ev
  status : Option StatusEmit
  commandResult : CommandResult

/-- Lines 273-310, the `mpv_command` WebSocket handler: dispatch on the
command name, call the matching facade method (leaving `result = None`
for an unknown command, or for `play` without a video), emit the
matching `player_status` broadcast, and finally emit `command_result`
with `success = (result is not None)`. -/
def handle_mpv_command (c : Ctrl) (t : Transport) (command : String)
    (args : MsgArgs) : HandlerOut :=
  let out : Option Json × Ctrl × List Ev × Option StatusEmit :=
    if command = "play" then
      match args.video with
      | some video =>
        let r := MPVController.play c t video.path
        (r.1, r.2.1, r.2.2, some (StatusEmit.playing video.title))
      | none => (none, c, [], none)
    else if command = "pause" then
      let r := MPVController.pause c t
      (r.1, r.2.1, r.2.2, some (StatusEmit.paused true))
    else if command = "resume" then
      let r := MPVController.resume c t
      (r.1, r.2.1, r.2.2, some (StatusEmit.paused false))
    else if command = "stop" then
      let r := MPVController.stop c t
      (r.1, r.2.1, r.2.2, some StatusEmit.stopped)
    else if command = "volume" then
      let volume := (args.value).getD 100
      let r := MPVController.set_volume c t volume
      (r.1, r.2.1, r.2.2, some (StatusEmit.volume volume))
    else if command = "seek" then
      let seconds := (args.seconds).getD 10
      let r := MPVController.seek c t seconds
      (r.1, r.2.1, r.2.2, none)
    else (none, c, [], none)
  { result := out.1, ctrl := out.2.1, trace := out.2.2.1, status := out.2.2.2,
    commandResult := { success := out.1.isSome, command := command } }

/-- Digit characters are digits. -/
theorem digitChar_isDigit (n : Nat) (h : n < 10) : (digitChar n).isDigit = true := by
  interval_cases n <;> decide

theorem digitVal_digitChar (n : Nat) (h : n < 10) : digitVal (digitChar n) = n := by
  interval_cases n <;> decide

theorem natCharsAux_acc (fuel : Nat) :
    ∀ (n : Nat) (acc : List Char),
      natCharsAux fuel n acc = natCharsAux fuel n [] ++ acc := by
  induction fuel with
  | zero => intro n acc; rfl
  | succ f ih =>
    intro n acc
    by_cases h : n < 10
    · simp [natCharsAux, h]
    · rw [natCharsAux, if_neg h, natCharsAux, if_neg h,
        ih (n / 10) (digitChar (n % 10) :: acc), ih (n / 10) [digitChar (n % 10)]]
      simp

theorem natCharsAux_irrel (n : Nat) :
    ∀ (f g : Nat), n < f → n < g → natCharsAux f n [] = natCharsAux g n [] := by
  induction n using Nat.strong_induction_on with
  | _ n ih =>
    intro f g hf hg
    cases f with
    | zero => omega
    | succ f =>
      cases g with
      | zero => omega
      | succ g =>
        by_cases h : n < 10
        · simp [natCharsAux, h]
        · rw [natCharsAux, if_neg h, natCharsAux, if_neg h,
            natCharsAux_acc f, natCharsAux_acc g]
          have hd : n / 10 < n := Nat.div_lt_self (by omega) (by omega)
          rw [ih (n / 10) hd f g (by omega) (by omega)]

/-- The defining recursion of `natChars`. -/
theorem natChars_eq (n : Nat) :
    natChars n = if n < 10 then [digitChar n]
                 else natChars (n / 10) ++ [digitChar (n % 10)] := by
  by_cases h : n < 10
  · simp [natChars, natCharsAux, h]
  · rw [if_neg h, natChars, natChars, natCharsAux, if_neg h, natCharsAux_acc n]
    have hd : n / 10 < n := Nat.div_lt_self (by omega) (by omega)
    rw [natCharsAux_irrel (n / 10) n (n / 10 + 1) (by omega) (by omega)]

theorem natChars_ne_nil (n : Nat) : natChars n ≠ [] := by
  rw [natChars_eq]
  by_cases h : n < 10 <;> simp [h]

theorem natChars_all_digits (n : Nat) :
    ∀ c ∈ natChars n, c.isDigit = true := by
  induction n using Nat.strong_induction_on with
  | _ n ih =>
    intro c hc
    rw [natChars_eq] at hc
    by_cases h : n < 10
    · rw [if_pos h] at hc
      simp at hc
      rw [hc]; exact digitChar_isDigit n h
    · rw [if_neg h] at hc
      rcases List.mem_append.mp hc with h1 | h1
      · exact ih (n / 10) (Nat.div_lt_self (by omega) (by omega)) c h1
      · simp at h1
        rw [h1]; exact digitChar_isDigit (n % 10) (by omega)

theorem digitsFoldl_shift (ds : List Char) :
    ∀ acc : Nat,
      ds.foldl (fun a c => a * 10 + digitVal c) acc
        = acc * 10 ^ ds.length + digitsToNat ds := by
  induction ds with
  | nil => intro acc; simp [digitsToNat]
  | cons c ds ih =>
    intro acc
    have h1 : digitsToNat (c :: ds) = digitVal c * 10 ^ ds.length + digitsToNat ds := by
      rw [digitsToNat, List.foldl_cons, ih (0 * 10 + digitVal c)]
      ring_nf
    rw [List.foldl_cons, ih (acc * 10 + digitVal c), h1]
    simp [List.length_cons]
    ring

theorem digitsToNat_append (a b : List Char) :
    digitsToNat (a ++ b) = digitsToNat a * 10 ^ b.length + digitsToNat b := by
  rw [digitsToNat, List.foldl_append, digitsFoldl_shift b]
  rfl

theorem digitsToNat_natChars (n : Nat) : digitsToNat (natChars n) = n := by
  induction n using Nat.strong_induction_on with
  | _ n ih =>
    rw [natChars_eq]
    by_cases h : n < 10
    · rw [if_pos h]
      show digitsToNat [digitChar n] = n
      rw [digitsToNat]
      simp [digitVal_digitChar n h]
    · rw [if_neg h, digitsToNat_append,
        ih (n / 10) (Nat.div_lt_self (by omega) (by omega))]
      have : digitsToNat [digitChar (n % 10)] = n % 10 := by
        rw [digitsToNat]; simp [digitVal_digitChar (n % 10) (by omega)]
      rw [this]
      simp
      omega

theorem natChars_length_le (n d : Nat) (h : n < 10 ^ d) (hd : 1 ≤ d) :
    (natChars n).length ≤ d := by
  induction d generalizing n with
  | zero => omega
  | succ d ih =>
    rw [natChars_eq]
    by_cases h10 : n < 10
    · rw [if_pos h10]
      simp
    · rw [if_neg h10]
      simp
      have hn : n / 10 < 10 ^ d := by
        rw [pow_succ] at h
        omega
      cases d with
      | zero =>
        norm_num at hn
        omega
      | succ d2 =>
        have := ih (n / 10) hn (by omega)
        omega

/-- No digit at the head of the remainder. -/
theorem takeDigits_of_digits (ds : List Char) :
    ∀ rest : List Char, (∀ c ∈ ds, c.isDigit = true) →
      (∀ c cs, rest = c :: cs → c.isDigit = false) →
      takeDigits (ds ++ rest) = (ds, rest) := by
  induction ds with
  | nil =>
    intro rest _ hrest
    cases rest with
    | nil => rfl
    | cons c cs =>
      simp [takeDigits, hrest c cs rfl]
  | cons d ds ih =>
    intro rest hds hrest
    have hd : d.isDigit = true := hds d (by simp)
    simp only [List.cons_append, takeDigits, hd, if_true]
    rw [show ds.append rest = ds ++ rest from rfl,
      ih rest (fun c hc => hds c (by simp [hc])) hrest]

theorem digitsToNat_replicate_zero (j : Nat) :
    digitsToNat (List.replicate j '0') = 0 := by
  induction j with
  | zero => rfl
  | succ k ih =>
    have : digitsToNat (List.replicate (k + 1) '0')
        = digitsToNat (List.replicate k '0' ++ ['0']) := by
      rw [← List.replicate_succ']
    rw [this, digitsToNat_append, ih]
    rfl

theorem natCharsPad_length (d k : Nat) (h : k < 10 ^ d) (hd : 1 ≤ d) :
    (natCharsPad d k).length = d := by
  have hle := natChars_length_le k d h hd
  simp [natCharsPad]
  omega

theorem natCharsPad_all_digits (d k : Nat) :
    ∀ c ∈ natCharsPad d k, c.isDigit = true := by
  intro c hc
  rcases List.mem_append.mp hc with h1 | h1
  · rw [List.eq_of_mem_replicate h1]; decide
  · exact natChars_all_digits k c h1

theorem digitsToNat_natCharsPad (d k : Nat) :
    digitsToNat (natCharsPad d k) = k := by
  rw [natCharsPad, digitsToNat_append, digitsToNat_replicate_zero,
    digitsToNat_natChars]
  simp

theorem hexVal_hexDigitChar (d : Nat) (h : d < 16) :
    hexVal (hexDigitChar d) = some d := by
  interval_cases d <;> decide

theorem parseHex4_hex4Chars (n : Nat) (h : n < 65536) (rest : List Char) :
    parseHex4 (hex4Chars n ++ rest) = some (n, rest) := by
  show parseHex4 (hexDigitChar (n / 4096 % 16) :: hexDigitChar (n / 256 % 16)
    :: hexDigitChar (n / 16 % 16) :: hexDigitChar (n % 16) :: rest) = some (n, rest)
  rw [parseHex4, hexVal_hexDigitChar _ (by omega), hexVal_hexDigitChar _ (by omega),
    hexVal_hexDigitChar _ (by omega), hexVal_hexDigitChar _ (by omega)]
  show some (n / 4096 % 16 * 4096 + n / 256 % 16 * 256 + n / 16 % 16 * 16 + n % 16, rest)
    = some (n, rest)
  congr 1
  have : n / 4096 % 16 * 4096 + n / 256 % 16 * 256 + n / 16 % 16 * 16 + n % 16 = n := by
    omega
  rw [this]

theorem parseUnicodeEscape_bmp (c : Char) (rest : List Char)
    (h : c.toNat < 0x10000) :
    parseUnicodeEscape (hex4Chars c.toNat ++ rest) = some (c, rest) := by
  have hv : c.toNat < 0xD800 ∨ (0xE000 ≤ c.toNat ∧ c.toNat < 0x110000) := c.valid
  rw [parseUnicodeEscape, parseHex4_hex4Chars c.toNat (by omega) rest,
    Option.some_bind]
  dsimp only []
  have hcond : (decide (c.toNat < 0xD800) || decide (0xE000 ≤ c.toNat)) = true := by
    rcases hv with h1 | ⟨h1, _⟩ <;> simp [h1]
  rw [if_pos hcond, Char.ofNat_toNat]

theorem parseUnicodeEscape_surrogatePair (c : Char) (rest : List Char)
    (h : 0x10000 ≤ c.toNat) :
    parseUnicodeEscape
        (hex4Chars (0xD800 + (c.toNat - 0x10000) / 0x400) ++
          ('\\' :: 'u' ::
            (hex4Chars (0xDC00 + (c.toNat - 0x10000) % 0x400) ++ rest)))
      = some (c, rest) := by
  have hv : c.toNat < 0xD800 ∨ (0xE000 ≤ c.toNat ∧ c.toNat < 0x110000) := c.valid
  have hlt : c.toNat < 0x110000 := by omega
  have hdiv : (c.toNat - 0x10000) / 0x400 < 0x400 := by omega
  rw [parseUnicodeEscape, parseHex4_hex4Chars _ (by omega), Option.some_bind]
  dsimp only []
  have hcond : ¬((decide (0xD800 + (c.toNat - 0x10000) / 0x400 < 0xD800)
      || decide (0xE000 ≤ 0xD800 + (c.toNat - 0x10000) / 0x400)) = true) := by
    simp
    omega
  rw [if_neg hcond,
    if_pos (show 0xD800 + (c.toNat - 0x10000) / 0x400 < 0xDC00 by omega),
    parseLowSurrogate, parseHex4_hex4Chars _ (by omega), Option.some_bind]
  dsimp only []
  rw [if_pos (show (decide (0xDC00 ≤ 0xDC00 + (c.toNat - 0x10000) % 0x400)
      && decide (0xDC00 + (c.toNat - 0x10000) % 0x400 < 0xE000)) = true by
        simp
        omega)]
  have harith : 0x10000
      + (0xD800 + (c.toNat - 0x10000) / 0x400 - 0xD800) * 0x400
      + (0xDC00 + (c.toNat - 0x10000) % 0x400 - 0xDC00) = c.toNat := by
    omega
  rw [harith, Char.ofNat_toNat]

theorem parseStringBody_escapeChar_step (fuel : Nat) (c : Char) (rest : List Char) :
    parseStringBody (fuel + 1) (escapeChar c ++ rest)
      = (parseStringBody fuel rest).map (fun p => (c :: p.1, p.2)) := by
  rw [escapeChar]
  by_cases h1 : c = '"'
  · subst h1; rw [if_pos rfl]; rfl
  rw [if_neg h1]
  by_cases h2 : c = '\\'
  · subst h2; rw [if_pos rfl]; rfl
  rw [if_neg h2]
  by_cases h3 : c = '\x08'
  · subst h3; rw [if_pos rfl]; rfl
  rw [if_neg h3]
  by_cases h4 : c = '\x0c'
  · subst h4; rw [if_pos rfl]; rfl
  rw [if_neg h4]
  by_cases h5 : c = '\n'
  · subst h5; rw [if_pos rfl]; rfl
  rw [if_neg h5]
  by_cases h6 : c = '\r'
  · subst h6; rw [if_pos rfl]; rfl
  rw [if_neg h6]
  by_cases h7 : c = '\t'
  · subst h7; rw [if_pos rfl]; rfl
  rw [if_neg h7]
  by_cases h8 : (decide (0x20 ≤ c.toNat) && decide (c.toNat ≤ 0x7E)) = true
  · rw [if_pos h8]
    show parseStringBody (fuel + 1) (c :: rest) = _
    rw [parseStringBody, if_neg h1, if_neg h2]
  · rw [if_neg h8]
    by_cases h9 : c.toNat < 0x10000
    · rw [if_pos h9]
      have hassoc : ('\\' :: 'u' :: hex4Chars c.toNat) ++ rest
          = '\\' :: 'u' :: (hex4Chars c.toNat ++ rest) := by simp
      rw [hassoc]
      have hstep : parseStringBody (fuel + 1)
            ('\\' :: 'u' :: (hex4Chars c.toNat ++ rest))
          = (parseUnicodeEscape (hex4Chars c.toNat ++ rest)).bind (fun q =>
              (parseStringBody fuel q.2).map (fun p => (q.1 :: p.1, p.2))) := rfl
      rw [hstep, parseUnicodeEscape_bmp c rest h9, Option.some_bind]
    · rw [if_neg h9]
      have h10 : 0x10000 ≤ c.toNat := by omega
      have hassoc : ('\\' :: 'u' :: hex4Chars (0xD800 + (c.toNat - 0x10000) / 0x400))
            ++ ('\\' :: 'u' :: hex4Chars (0xDC00 + (c.toNat - 0x10000) % 0x400)) ++ rest
          = '\\' :: 'u' :: (hex4Chars (0xD800 + (c.toNat - 0x10000) / 0x400)
            ++ ('\\' :: 'u' ::
              (hex4Chars (0xDC00 + (c.toNat - 0x10000) % 0x400) ++ rest))) := by
        simp
      rw [hassoc]
      have hstep : parseStringBody (fuel + 1)
            ('\\' :: 'u' :: (hex4Chars (0xD800 + (c.toNat - 0x10000) / 0x400)
              ++ ('\\' :: 'u' ::
                (hex4Chars (0xDC00 + (c.toNat - 0x10000) % 0x400) ++ rest))))
          = (parseUnicodeEscape (hex4Chars (0xD800 + (c.toNat - 0x10000) / 0x400)
              ++ ('\\' :: 'u' ::
                (hex4Chars (0xDC00 + (c.toNat - 0x10000) % 0x400) ++ rest)))).bind
              (fun q =>
                (parseStringBody fuel q.2).map (fun p => (q.1 :: p.1, p.2))) := rfl
      rw [hstep, parseUnicodeEscape_surrogatePair c rest h10, Option.some_bind]

theorem parseStringBody_escList (cs : List Char) :
    ∀ (fuel : Nat) (rest : List Char), cs.length < fuel →
      parseStringBody fuel (escList cs ++ '"' :: rest) = some (cs, rest) := by
  induction cs with
  | nil =>
    intro fuel rest h
    cases fuel with
    | zero => omega
    | succ f => rfl
  | cons c cs ih =>
    intro fuel rest h
    cases fuel with
    | zero => omega
    | succ f =>
      have hesc : escList (c :: cs) = escapeChar c ++ escList cs := by
        simp [escList]
      rw [hesc, List.append_assoc, parseStringBody_escapeChar_step f c _,
        ih f rest (by simp only [List.length_cons] at h; omega)]
      rfl

theorem digit_ne_of_not_digit (c d : Char) (h : c.isDigit = true)
    (hd : d.isDigit = false) : c ≠ d := by
  intro heq
  subst heq
  rw [h] at hd
  exact absurd hd (by simp)

theorem parsePosNumber_natChars (n : Nat) (rest : List Char)
    (hb : numBoundary rest) :
    parsePosNumber (natChars n ++ rest) = some (.int (Int.ofNat n), rest) := by
  have htd : takeDigits (natChars n ++ rest) = (natChars n, rest) :=
    takeDigits_of_digits (natChars n) rest (natChars_all_digits n)
      (fun c cs hr => by rw [hr] at hb; exact hb.1)
  rw [parsePosNumber, htd]
  dsimp only []
  rw [if_neg (natChars_ne_nil n)]
  cases rest with
  | nil =>
    dsimp only []
    rw [digitsToNat_natChars]
  | cons c cs =>
    have hcd : c ≠ '.' := hb.2
    split
    · rename_i cs2 heq
      injection heq with h1 h2
      exact absurd h1 hcd
    · rw [digitsToNat_natChars]

theorem parsePosNumber_floatChars (a e : Nat) (rest : List Char)
    (hb : numBoundary rest) :
    parsePosNumber (natChars (a / 10 ^ (e + 1))
        ++ '.' :: (natCharsPad (e + 1) (a % 10 ^ (e + 1)) ++ rest))
      = some (.float (Int.ofNat a) e, rest) := by
  have hmod : a % 10 ^ (e + 1) < 10 ^ (e + 1) :=
    Nat.mod_lt a (by positivity)
  have hlen : (natCharsPad (e + 1) (a % 10 ^ (e + 1))).length = e + 1 :=
    natCharsPad_length (e + 1) (a % 10 ^ (e + 1)) hmod (by omega)
  have htd1 : takeDigits (natChars (a / 10 ^ (e + 1))
      ++ '.' :: (natCharsPad (e + 1) (a % 10 ^ (e + 1)) ++ rest))
      = (natChars (a / 10 ^ (e + 1)),
         '.' :: (natCharsPad (e + 1) (a % 10 ^ (e + 1)) ++ rest)) :=
    takeDigits_of_digits _ _ (natChars_all_digits _)
      (fun c cs hr => by
        injection hr with h1 h2
        rw [← h1]
        decide)
  have htd2 : takeDigits (natCharsPad (e + 1) (a % 10 ^ (e + 1)) ++ rest)
      = (natCharsPad (e + 1) (a % 10 ^ (e + 1)), rest) :=
    takeDigits_of_digits _ _ (natCharsPad_all_digits _ _)
      (fun c cs hr => by rw [hr] at hb; exact hb.1)
  rw [parsePosNumber, htd1]
  dsimp only []
  rw [if_neg (natChars_ne_nil _)]
  split
  · rename_i cs2 heq
    injection heq with h1 h2
    subst h2
    rw [htd2]
    dsimp only []
    rw [if_neg (show ¬(natCharsPad (e + 1) (a % 10 ^ (e + 1)) = []) from by
      intro hnil
      rw [hnil] at hlen
      simp at hlen)]
    rw [hlen, digitsToNat_natChars, digitsToNat_natCharsPad]
    have hval : a / 10 ^ (e + 1) * 10 ^ (e + 1) + a % 10 ^ (e + 1) = a := by
      rw [Nat.mul_comm]
      exact Nat.div_add_mod a (10 ^ (e + 1))
    rw [hval]
    simp
  · rename_i harm
    exact absurd rfl (harm _)

theorem parseNumber_intChars (n : Int) (rest : List Char)
    (hb : numBoundary rest) :
    parseNumber (intChars n ++ rest) = some (.int n, rest) := by
  rw [intChars]
  by_cases hn : n < 0
  · rw [if_pos hn]
    have hassoc : ('-' :: natChars n.natAbs) ++ rest
        = '-' :: (natChars n.natAbs ++ rest) := rfl
    rw [hassoc]
    have hstep : parseNumber ('-' :: (natChars n.natAbs ++ rest))
        = (parsePosNumber (natChars n.natAbs ++ rest)).bind (fun p =>
            match p.1 with
            | .int n => some (.int (-n), p.2)
            | .float m e => some (.float (-m) e, p.2)
            | _ => none) := rfl
    rw [hstep, parsePosNumber_natChars n.natAbs rest hb, Option.some_bind]
    dsimp only []
    have : -(Int.ofNat n.natAbs) = n := by
      rw [Int.ofNat_eq_coe]
      omega
    rw [this]
  · rw [if_neg hn]
    obtain ⟨c, l, hcl⟩ : ∃ c l, natChars n.natAbs = c :: l := by
      cases hnc : natChars n.natAbs with
      | nil => exact absurd hnc (natChars_ne_nil _)
      | cons c l => exact ⟨c, l, rfl⟩
    have hcd : c.isDigit = true :=
      natChars_all_digits _ c (by rw [hcl]; simp)
    have hcne : c ≠ '-' := digit_ne_of_not_digit c '-' hcd (by decide)
    rw [hcl, List.cons_append, parseNumber.eq_def]
    split
    · rename_i cs1 heq
      injection heq with h1 h2
      exact absurd h1 hcne
    · rename_i harm
      rw [← List.cons_append, ← hcl, parsePosNumber_natChars n.natAbs rest hb]
      have : Int.ofNat n.natAbs = n := by
        rw [Int.ofNat_eq_coe]
        omega
      rw [this]

theorem parseNumber_floatChars (m : Int) (e : Nat) (rest : List Char)
    (hb : numBoundary rest) :
    parseNumber (floatChars m e ++ rest) = some (.float m e, rest) := by
  rw [floatChars]
  by_cases hm : m < 0
  · rw [if_pos hm]
    have hassoc : ((['-'] ++ natChars (m.natAbs / 10 ^ (e + 1)))
          ++ '.' :: natCharsPad (e + 1) (m.natAbs % 10 ^ (e + 1))) ++ rest
        = '-' :: (natChars (m.natAbs / 10 ^ (e + 1))
            ++ '.' :: (natCharsPad (e + 1) (m.natAbs % 10 ^ (e + 1)) ++ rest)) := by
      simp
    rw [hassoc]
    have hstep : parseNumber ('-' :: (natChars (m.natAbs / 10 ^ (e + 1))
          ++ '.' :: (natCharsPad (e + 1) (m.natAbs % 10 ^ (e + 1)) ++ rest)))
        = (parsePosNumber (natChars (m.natAbs / 10 ^ (e + 1))
            ++ '.' :: (natCharsPad (e + 1) (m.natAbs % 10 ^ (e + 1)) ++ rest))).bind
            (fun p =>
              match p.1 with
              | .int n => some (.int (-n), p.2)
              | .float m e => some (.float (-m) e, p.2)
              | _ => none) := rfl
    rw [hstep, parsePosNumber_floatChars m.natAbs e rest hb, Option.some_bind]
    dsimp only []
    have : -(Int.ofNat m.natAbs) = m := by
      rw [Int.ofNat_eq_coe]
      omega
    rw [this]
  · rw [if_neg hm]
    obtain ⟨c, l, hcl⟩ : ∃ c l, natChars (m.natAbs / 10 ^ (e + 1)) = c :: l := by
      cases hnc : natChars (m.natAbs / 10 ^ (e + 1)) with
      | nil => exact absurd hnc (natChars_ne_nil _)
      | cons c l => exact ⟨c, l, rfl⟩
    have hcd : c.isDigit = true :=
      natChars_all_digits _ c (by rw [hcl]; simp)
    have hcne : c ≠ '-' := digit_ne_of_not_digit c '-' hcd (by decide)
    have hassoc : (([] ++ natChars (m.natAbs / 10 ^ (e + 1)))
          ++ '.' :: natCharsPad (e + 1) (m.natAbs % 10 ^ (e + 1))) ++ rest
        = c :: (l ++ '.' :: (natCharsPad (e + 1) (m.natAbs % 10 ^ (e + 1)) ++ rest)) := by
      rw [List.nil_append, hcl]
      simp
    rw [hassoc, parseNumber.eq_def]
    split
    · rename_i cs1 heq
      injection heq with h1 h2
      exact absurd h1 hcne
    · rename_i harm
      have hback : c :: (l ++ '.' :: (natCharsPad (e + 1) (m.natAbs % 10 ^ (e + 1)) ++ rest))
          = natChars (m.natAbs / 10 ^ (e + 1))
            ++ '.' :: (natCharsPad (e + 1) (m.natAbs % 10 ^ (e + 1)) ++ rest) := by
        rw [hcl]
        simp
      rw [hback, parsePosNumber_floatChars m.natAbs e rest hb]
      have : Int.ofNat m.natAbs = m := by
        rw [Int.ofNat_eq_coe]
        omega
      rw [this]

theorem digit_not_ws (c : Char) (h : c.isDigit = true) : isWsChar c = false := by
  have h1 := digit_ne_of_not_digit c ' ' h (by decide)
  have h2 := digit_ne_of_not_digit c '\t' h (by decide)
  have h3 := digit_ne_of_not_digit c '\n' h (by decide)
  have h4 := digit_ne_of_not_digit c '\x0d' h (by decide)
  simp [isWsChar, h1, h2, h3, h4]

theorem parseVal_not_special (fuel : Nat) (c : Char) (l : List Char)
    (h1 : isWsChar c = false) (h2 : c ≠ '\x7b') (h3 : c ≠ '[') (h4 : c ≠ '"')
    (h5 : c ≠ 't') (h6 : c ≠ 'f') (h7 : c ≠ 'n') :
    parseVal (fuel + 1) (c :: l) = parseNumber (c :: l) := by
  rw [parseVal.eq_2]
  rw [show skipWs (c :: l) = c :: l from by simp [skipWs, h1]]
  dsimp only []
  rw [if_neg h2, if_neg h3, if_neg h4, if_neg h5, if_neg h6, if_neg h7]

theorem parseVal_space (fuel : Nat) (l : List Char) :
    parseVal fuel (' ' :: l) = parseVal fuel l := by
  cases fuel with
  | zero => rfl
  | succ f => rfl

theorem string_mk_data (s : String) : String.mk s.data = s := rfl

theorem jsize_pos (v : Json) : 1 ≤ jsize v := by
  cases v with
  | null => simp [jsize]
  | bool b => simp [jsize]
  | int n => simp [jsize]
  | float m e => simp [jsize]
  | str s => simp [jsize]
  | arr elems =>
    cases elems with
    | nil => simp [jsize]
    | cons x xs =>
      simp [jsize]
      omega
  | obj members =>
    cases members with
    | nil => simp [jsize]
    | cons kv ms =>
      obtain ⟨k, v2⟩ := kv
      simp [jsize]
      omega

theorem ltsize_pos (xs : List Json) : 1 ≤ ltsize xs := by
  cases xs with
  | nil => simp [ltsize]
  | cons x xs =>
    simp [ltsize]
    omega

theorem mtsize_pos (ms : List (String × Json)) : 1 ≤ mtsize ms := by
  cases ms with
  | nil => simp [mtsize]
  | cons kv ms =>
    obtain ⟨k, v2⟩ := kv
    simp [mtsize]
    omega

theorem rtail_numBoundary (xs : List Json) (rest : List Char) :
    numBoundary (rtail xs ++ rest) := by
  cases xs with
  | nil => exact ⟨by decide, by decide⟩
  | cons x xs => exact ⟨by decide, by decide⟩

theorem rmtail_numBoundary (ms : List (String × Json)) (rest : List Char) :
    numBoundary (rmtail ms ++ rest) := by
  cases ms with
  | nil => exact ⟨by decide, by decide⟩
  | cons kv ms =>
    obtain ⟨k, v2⟩ := kv
    exact ⟨by decide, by decide⟩

theorem natChars_head (n : Nat) : ∃ c l, natChars n = c :: l ∧ c.isDigit = true := by
  cases hnc : natChars n with
  | nil => exact absurd hnc (natChars_ne_nil n)
  | cons c l =>
    exact ⟨c, l, rfl, natChars_all_digits n c (by rw [hnc]; simp)⟩

theorem rjson_head_facts (v : Json) :
    ∃ c l, rjson v = c :: l ∧ isWsChar c = false ∧ c ≠ ']' := by
  cases v with
  | null => exact ⟨'n', ['u', 'l', 'l'], rfl, by decide, by decide⟩
  | bool b =>
    cases b with
    | true => exact ⟨'t', ['r', 'u', 'e'], rfl, by decide, by decide⟩
    | false => exact ⟨'f', ['a', 'l', 's', 'e'], rfl, by decide, by decide⟩
  | int n =>
    by_cases hn : n < 0
    · exact ⟨'-', natChars n.natAbs,
        by show intChars n = _; rw [intChars, if_pos hn], by decide, by decide⟩
    · obtain ⟨c, l, hcl, hcd⟩ := natChars_head n.natAbs
      exact ⟨c, l, by show intChars n = _; rw [intChars, if_neg hn, hcl],
        digit_not_ws c hcd, digit_ne_of_not_digit c ']' hcd (by decide)⟩
  | float m e =>
    by_cases hm : m < 0
    · exact ⟨'-', natChars (m.natAbs / 10 ^ (e + 1))
          ++ '.' :: natCharsPad (e + 1) (m.natAbs % 10 ^ (e + 1)),
        by show floatChars m e = _; rw [floatChars, if_pos hm]; simp,
        by decide, by decide⟩
    · obtain ⟨c, l, hcl, hcd⟩ := natChars_head (m.natAbs / 10 ^ (e + 1))
      exact ⟨c, l ++ '.' :: natCharsPad (e + 1) (m.natAbs % 10 ^ (e + 1)),
        by show floatChars m e = _; rw [floatChars, if_neg hm, hcl]; simp,
        digit_not_ws c hcd, digit_ne_of_not_digit c ']' hcd (by decide)⟩
  | str s =>
    exact ⟨'"', escList s.data ++ ['"'],
      by show strChars s = _; rw [strChars], by decide, by decide⟩
  | arr elems =>
    cases elems with
    | nil => exact ⟨'[', [']'], rfl, by decide, by decide⟩
    | cons x xs => exact ⟨'[', rjson x ++ rtail xs, rfl, by decide, by decide⟩
  | obj members =>
    cases members with
    | nil => exact ⟨'\x7b', ['\x7d'], rfl, by decide, by decide⟩
    | cons kv ms =>
      obtain ⟨k, v2⟩ := kv
      exact ⟨'\x7b', strChars k ++ ':' :: ' ' :: (rjson v2 ++ rmtail ms), rfl,
        by decide, by decide⟩

theorem parse_render_all :
    ∀ fuel : Nat,
      (∀ (v : Json) (rest : List Char), jsize v ≤ fuel → numBoundary rest →
        parseVal fuel (rjson v ++ rest) = some (v, rest)) ∧
      (∀ (xs : List Json) (rest : List Char), ltsize xs ≤ fuel →
        parseElemsTail fuel (rtail xs ++ rest) = some (xs, rest)) ∧
      (∀ (ms : List (String × Json)) (rest : List Char), mtsize ms ≤ fuel →
        parseMembersTail fuel (rmtail ms ++ rest) = some (ms, rest)) := by
  intro fuel
  induction fuel using Nat.strong_induction_on with
  | _ fuel ih =>
    cases fuel with
    | zero =>
      refine ⟨?_, ?_, ?_⟩
      · intro v rest hs _
        have := jsize_pos v
        omega
      · intro xs rest hs
        have := ltsize_pos xs
        omega
      · intro ms rest hs
        have := mtsize_pos ms
        omega
    | succ f =>
      have hP : ∀ (v : Json) (rest : List Char), jsize v ≤ f → numBoundary rest →
          parseVal f (rjson v ++ rest) = some (v, rest) := (ih f (by omega)).1
      have hQ : ∀ (xs : List Json) (rest : List Char), ltsize xs ≤ f →
          parseElemsTail f (rtail xs ++ rest) = some (xs, rest) := (ih f (by omega)).2.1
      have hR : ∀ (ms : List (String × Json)) (rest : List Char), mtsize ms ≤ f →
          parseMembersTail f (rmtail ms ++ rest) = some (ms, rest) := (ih f (by omega)).2.2
      refine ⟨?_, ?_, ?_⟩
      · intro v rest hs hb
        cases v with
        | null => rfl
        | bool b => cases b <;> rfl
        | int n =>
          show parseVal (f + 1) (intChars n ++ rest) = some (.int n, rest)
          by_cases hn : n < 0
          · have hdisp : parseVal (f + 1) (intChars n ++ rest)
                = parseNumber (intChars n ++ rest) := by
              rw [intChars, if_pos hn]
              rfl
            rw [hdisp, parseNumber_intChars n rest hb]
          · obtain ⟨c, l, hcl, hcd⟩ := natChars_head n.natAbs
            have hdisp : parseVal (f + 1) (intChars n ++ rest)
                = parseNumber (intChars n ++ rest) := by
              rw [intChars, if_neg hn, hcl, List.cons_append]
              exact parseVal_not_special f c (l ++ rest) (digit_not_ws c hcd)
                (digit_ne_of_not_digit c '\x7b' hcd (by decide))
                (digit_ne_of_not_digit c '[' hcd (by decide))
                (digit_ne_of_not_digit c '"' hcd (by decide))
                (digit_ne_of_not_digit c 't' hcd (by decide))
                (digit_ne_of_not_digit c 'f' hcd (by decide))
                (digit_ne_of_not_digit c 'n' hcd (by decide))
            rw [hdisp, parseNumber_intChars n rest hb]
        | float m e =>
          show parseVal (f + 1) (floatChars m e ++ rest) = some (.float m e, rest)
          by_cases hm : m < 0
          · have hdisp : parseVal (f + 1) (floatChars m e ++ rest)
                = parseNumber (floatChars m e ++ rest) := by
              rw [floatChars, if_pos hm]
              rfl
            rw [hdisp, parseNumber_floatChars m e rest hb]
          · obtain ⟨c, l, hcl, hcd⟩ := natChars_head (m.natAbs / 10 ^ (e + 1))
            have hform : floatChars m e ++ rest
                = c :: (l ++ '.' :: (natCharsPad (e + 1) (m.natAbs % 10 ^ (e + 1)) ++ rest)) := by
              rw [floatChars, if_neg hm, hcl]
              simp
            have hdisp : parseVal (f + 1) (floatChars m e ++ rest)
                = parseNumber (floatChars m e ++ rest) := by
              rw [hform]
              exact parseVal_not_special f c _ (digit_not_ws c hcd)
                (digit_ne_of_not_digit c '\x7b' hcd (by decide))
                (digit_ne_of_not_digit c '[' hcd (by decide))
                (digit_ne_of_not_digit c '"' hcd (by decide))
                (digit_ne_of_not_digit c 't' hcd (by decide))
                (digit_ne_of_not_digit c 'f' hcd (by decide))
                (digit_ne_of_not_digit c 'n' hcd (by decide))
            rw [hdisp, parseNumber_floatChars m e rest hb]
        | str s =>
          have hfuel : s.data.length < f := by
            simp [jsize] at hs
            have h3 : s.data.length = s.length := rfl
            omega
          have hform : rjson (.str s) ++ rest
              = '"' :: (escList s.data ++ ('"' :: rest)) := by
            show strChars s ++ rest = _
            rw [strChars]
            simp
          rw [hform]
          have hstep : ∀ Z : List Char, parseVal (f + 1) ('"' :: Z)
              = (parseStringBody f Z).map (fun p => (.str (String.mk p.1), p.2)) :=
            fun Z => rfl
          rw [hstep, parseStringBody_escList s.data f rest hfuel]
          rfl
        | arr elems =>
          cases elems with
          | nil => rfl
          | cons x xs =>
            have hsx : jsize x ≤ f := by
              simp [jsize] at hs
              omega
            have hsxs : ltsize xs ≤ f := by
              simp [jsize] at hs
              omega
            obtain ⟨c0, l0, hcl0, hws0, hne0⟩ := rjson_head_facts x
            have hform : rjson (.arr (x :: xs)) ++ rest
                = '[' :: (rjson x ++ (rtail xs ++ rest)) := by
              show ('[' :: (rjson x ++ rtail xs)) ++ rest = _
              simp
            rw [hform]
            have hstep : ∀ Y : List Char, parseVal (f + 1) ('[' :: Y)
                = match skipWs Y with
                  | ']' :: r => some (.arr [], r)
                  | cs2 => (parseVal f cs2).bind (fun vp =>
                      (parseElemsTail f vp.2).map (fun tp =>
                        (.arr (vp.1 :: tp.1), tp.2))) := fun Y => rfl
            rw [hstep, hcl0, List.cons_append]
            rw [show skipWs (c0 :: (l0 ++ (rtail xs ++ rest)))
                = c0 :: (l0 ++ (rtail xs ++ rest)) from by simp [skipWs, hws0]]
            split
            · rename_i r heq
              injection heq with hh1 hh2
              exact absurd hh1 hne0
            · rw [← List.cons_append, ← hcl0,
                hP x (rtail xs ++ rest) hsx (rtail_numBoundary xs rest),
                Option.some_bind]
              dsimp only []
              rw [hQ xs rest hsxs]
              rfl
        | obj members =>
          cases members with
          | nil => rfl
          | cons kv ms =>
            obtain ⟨k, v2⟩ := kv
            have hkf : k.data.length < f := by
              simp [jsize] at hs
              have h3 : k.data.length = k.length := rfl
              omega
            have hv2 : jsize v2 ≤ f := by
              simp [jsize] at hs
              omega
            have hms : mtsize ms ≤ f := by
              simp [jsize] at hs
              omega
            have hform : rjson (.obj ((k, v2) :: ms)) ++ rest
                = '\x7b' :: '"' :: (escList k.data
                    ++ ('"' :: (':' :: ' ' :: (rjson v2 ++ (rmtail ms ++ rest))))) := by
              show ('\x7b' :: (strChars k ++ ':' :: ' ' :: (rjson v2 ++ rmtail ms))) ++ rest = _
              rw [strChars]
              simp
            rw [hform]
            have hstep : ∀ Z : List Char, parseVal (f + 1) ('\x7b' :: '"' :: Z)
                = (parseStringBody f Z).bind (fun kp =>
                    match skipWs kp.2 with
                    | ':' :: r2 => (parseVal f r2).bind (fun vp =>
                        (parseMembersTail f vp.2).map (fun mp =>
                          (.obj ((String.mk kp.1, vp.1) :: mp.1), mp.2)))
                    | _ => none) := fun Z => rfl
            rw [hstep, parseStringBody_escList k.data f _ hkf, Option.some_bind]
            dsimp only []
            rw [show skipWs (':' :: ' ' :: (rjson v2 ++ (rmtail ms ++ rest)))
                = ':' :: ' ' :: (rjson v2 ++ (rmtail ms ++ rest)) from rfl]
            split
            · rename_i r2 heq
              injection heq with hh1 hh2
              subst hh2
              rw [parseVal_space,
                hP v2 (rmtail ms ++ rest) hv2 (rmtail_numBoundary ms rest),
                Option.some_bind]
              dsimp only []
              rw [hR ms rest hms]
              rfl
            · rename_i harm
              exact absurd rfl (harm _)
      · intro xs rest hs
        cases xs with
        | nil => rfl
        | cons x xs =>
          have hsx : jsize x ≤ f := by
            simp [ltsize] at hs
            omega
          have hsxs : ltsize xs ≤ f := by
            simp [ltsize] at hs
            omega
          have hform : rtail (x :: xs) ++ rest
              = ',' :: ' ' :: (rjson x ++ (rtail xs ++ rest)) := by
            show (',' :: ' ' :: (rjson x ++ rtail xs)) ++ rest = _
            simp
          rw [hform]
          have hstep : ∀ W : List Char, parseElemsTail (f + 1) (',' :: W)
              = (parseVal f W).bind (fun vp =>
                  (parseElemsTail f vp.2).map (fun tp => (vp.1 :: tp.1, tp.2))) :=
            fun W => rfl
          rw [hstep, parseVal_space,
            hP x (rtail xs ++ rest) hsx (rtail_numBoundary xs rest),
            Option.some_bind]
          dsimp only []
          rw [hQ xs rest hsxs]
          rfl
      · intro ms rest hs
        cases ms with
        | nil => rfl
        | cons kv ms =>
          obtain ⟨k, v2⟩ := kv
          have hkf : k.data.length < f := by
            simp [mtsize] at hs
            have h3 : k.data.length = k.length := rfl
            omega
          have hv2 : jsize v2 ≤ f := by
            simp [mtsize] at hs
            omega
          have hms : mtsize ms ≤ f := by
            simp [mtsize] at hs
            omega
          have hform : rmtail ((k, v2) :: ms) ++ rest
              = ',' :: ' ' :: '"' :: (escList k.data
                  ++ ('"' :: (':' :: ' ' :: (rjson v2 ++ (rmtail ms ++ rest))))) := by
            show (',' :: ' ' :: (strChars k ++ ':' :: ' ' :: (rjson v2 ++ rmtail ms))) ++ rest = _
            rw [strChars]
            simp
          rw [hform]
          have hstep : ∀ Z : List Char, parseMembersTail (f + 1) (',' :: ' ' :: '"' :: Z)
              = (parseStringBody f Z).bind (fun kp =>
                  match skipWs kp.2 with
                  | ':' :: r3 => (parseVal f r3).bind (fun vp =>
                      (parseMembersTail f vp.2).map (fun mp =>
                        ((String.mk kp.1, vp.1) :: mp.1, mp.2)))
                  | _ => none) := fun Z => rfl
          rw [hstep, parseStringBody_escList k.data f _ hkf, Option.some_bind]
          dsimp only []
          rw [show skipWs (':' :: ' ' :: (rjson v2 ++ (rmtail ms ++ rest)))
              = ':' :: ' ' :: (rjson v2 ++ (rmtail ms ++ rest)) from rfl]
          split
          · rename_i r3 heq
            injection heq with hh1 hh2
            subst hh2
            rw [parseVal_space,
              hP v2 (rmtail ms ++ rest) hv2 (rmtail_numBoundary ms rest),
              Option.some_bind]
            dsimp only []
            rw [hR ms rest hms]
            rfl
          · rename_i harm
            exact absurd rfl (harm _)

theorem hexDigitChar_ne_newline (d : Nat) (h : d < 16) : hexDigitChar d ≠ '\n' := by
  interval_cases d <;> decide

theorem escapeChar_no_newline (c : Char) : '\n' ∉ escapeChar c := by
  rw [escapeChar]
  split_ifs with h1 h2 h3 h4 h5 h6 h7 h8 h9
  · decide
  · decide
  · decide
  · decide
  · decide
  · decide
  · decide
  · intro hmem
    simp at hmem
    rw [← hmem] at h8
    exact absurd h8 (by decide)
  · intro hmem
    simp [hex4Chars] at hmem
    rcases hmem with h | h | h | h <;>
      exact absurd h.symm (hexDigitChar_ne_newline _ (by omega))
  · intro hmem
    simp [hex4Chars] at hmem
    rcases hmem with h | h | h | h | h | h | h | h <;>
      exact absurd h.symm (hexDigitChar_ne_newline _ (by omega))

theorem escList_no_newline (cs : List Char) : '\n' ∉ escList cs := by
  intro hmem
  rw [escList] at hmem
  rcases List.mem_flatMap.mp hmem with ⟨c, _, hc⟩
  exact escapeChar_no_newline c hc

theorem natChars_no_newline (n : Nat) : '\n' ∉ natChars n := by
  intro hmem
  exact absurd (natChars_all_digits n _ hmem) (by decide)

theorem natCharsPad_no_newline (d k : Nat) : '\n' ∉ natCharsPad d k := by
  intro hmem
  rcases List.mem_append.mp hmem with h | h
  · exact absurd (List.eq_of_mem_replicate h) (by decide)
  · exact natChars_no_newline k h

theorem intChars_no_newline (n : Int) : '\n' ∉ intChars n := by
  intro hmem
  rw [intChars] at hmem
  by_cases hn : n < 0
  · rw [if_pos hn] at hmem
    rcases List.mem_cons.mp hmem with h | h
    · exact absurd h (by decide)
    · exact natChars_no_newline _ h
  · rw [if_neg hn] at hmem
    exact natChars_no_newline _ hmem

theorem floatChars_no_newline (m : Int) (e : Nat) : '\n' ∉ floatChars m e := by
  intro hmem
  rw [floatChars] at hmem
  rcases List.mem_append.mp hmem with h | h
  · rcases List.mem_append.mp h with h2 | h2
    · by_cases hm : m < 0
      · rw [if_pos hm] at h2
        exact absurd (List.mem_singleton.mp h2) (by decide)
      · rw [if_neg hm] at h2
        exact absurd h2 (by simp)
    · exact natChars_no_newline _ h2
  · rcases List.mem_cons.mp h with h2 | h2
    · exact absurd h2 (by decide)
    · exact natCharsPad_no_newline _ _ h2

theorem strChars_no_newline (s : String) : '\n' ∉ strChars s := by
  intro hmem
  rw [strChars] at hmem
  rcases List.mem_cons.mp hmem with h | h
  · exact absurd h (by decide)
  · rcases List.mem_append.mp h with h2 | h2
    · exact escList_no_newline s.data h2
    · exact absurd (List.mem_singleton.mp h2) (by decide)

theorem arg_no_newline (a : Arg) : '\n' ∉ rjson a.toJson := by
  cases a with
  | str s => exact strChars_no_newline s
  | int n => exact intChars_no_newline n
  | float m e => exact floatChars_no_newline m e
  | bool b => cases b <;> decide

theorem rtail_args_no_newline (L : List Arg) :
    '\n' ∉ rtail (L.map Arg.toJson) := by
  induction L with
  | nil => decide
  | cons a L ih =>
    intro hmem
    rw [List.map_cons, rtail] at hmem
    rcases List.mem_cons.mp hmem with h | h
    · exact absurd h (by decide)
    · rcases List.mem_cons.mp h with h2 | h2
      · exact absurd h2 (by decide)
      · rcases List.mem_append.mp h2 with h3 | h3
        · exact arg_no_newline a h3
        · exact ih h3

theorem rjson_cmdJson_no_newline (command : String) (args : List Arg) :
    '\n' ∉ rjson (cmdJson command args) := by
  intro hmem
  have hform : rjson (cmdJson command args)
      = '\x7b' :: (strChars "command" ++ ':' :: ' '
          :: (('[' :: (strChars command ++ rtail (args.map Arg.toJson)))
              ++ rmtail [])) := rfl
  rw [hform] at hmem
  rcases List.mem_cons.mp hmem with h | h
  · exact absurd h (by decide)
  rcases List.mem_append.mp h with h | h
  · exact absurd h (by decide)
  rcases List.mem_cons.mp h with h | h
  · exact absurd h (by decide)
  rcases List.mem_cons.mp h with h | h
  · exact absurd h (by decide)
  rcases List.mem_append.mp h with h | h
  · rcases List.mem_cons.mp h with h2 | h2
    · exact absurd h2 (by decide)
    rcases List.mem_append.mp h2 with h3 | h3
    · exact strChars_no_newline command h3
    · exact rtail_args_no_newline args h3
  · exact absurd h (by decide)

theorem escapeChar_length_pos (c : Char) : 1 ≤ (escapeChar c).length := by
  rw [escapeChar]
  split_ifs <;> simp [hex4Chars]

theorem escList_length_ge (cs : List Char) :
    cs.length ≤ (escList cs).length := by
  induction cs with
  | nil => simp [escList]
  | cons c cs ih =>
    have h1 : escList (c :: cs) = escapeChar c ++ escList cs := by simp [escList]
    rw [h1]
    simp only [List.length_append, List.length_cons]
    have := escapeChar_length_pos c
    omega

theorem arg_jsize_le (a : Arg) : jsize a.toJson ≤ (rjson a.toJson).length := by
  cases a with
  | str s =>
    show jsize (.str s) ≤ (strChars s).length
    rw [strChars]
    simp [jsize]
    have h1 := escList_length_ge s.data
    have h2 : s.data.length = s.length := rfl
    omega
  | int n =>
    show jsize (.int n) ≤ (intChars n).length
    rw [intChars]
    simp [jsize]
    by_cases hn : n < 0
    · rw [if_pos hn]
      simp
    · rw [if_neg hn]
      cases hnc : natChars n.natAbs with
      | nil => exact absurd hnc (natChars_ne_nil _)
      | cons c l => simp
  | float m e =>
    show jsize (.float m e) ≤ (floatChars m e).length
    rw [floatChars]
    simp [jsize]
    omega
  | bool b => cases b <;> simp [jsize, rjson]

theorem args_ltsize_le (L : List Arg) :
    ltsize (L.map Arg.toJson) ≤ (rtail (L.map Arg.toJson)).length := by
  induction L with
  | nil => simp [ltsize, rtail]
  | cons a L ih =>
    rw [List.map_cons, ltsize, rtail]
    simp only [List.length_cons, List.length_append]
    have := arg_jsize_le a
    omega

theorem jsize_cmdJson_le (command : String) (args : List Arg) :
    jsize (cmdJson command args) ≤ (rjson (cmdJson command args)).length := by
  have hform : rjson (cmdJson command args)
      = '\x7b' :: (strChars "command" ++ ':' :: ' '
          :: (('[' :: (strChars command ++ rtail (args.map Arg.toJson)))
              ++ ['\x7d'])) := rfl
  have hjs : jsize (cmdJson command args)
      = 1 + ("command".data.length + 2)
        + (1 + (command.data.length + 2) + ltsize (args.map Arg.toJson)) + 1 := by
    show jsize (.obj [("command",
      .arr (.str command :: args.map Arg.toJson))]) = _
    simp only [jsize, mtsize]
  rw [hform, hjs]
  have h1 : jsize (.str command) ≤ (strChars command).length := arg_jsize_le (.str command)
  have h2 := args_ltsize_le args
  have h3 : jsize (.str command) = command.data.length + 2 := rfl
  have h4 : (strChars command).length = (escList command.data).length + 2 := by
    rw [strChars]
    simp
  simp only [List.length_cons, List.length_append]
  have h5 : ("command".data.length : Nat) = 7 := rfl
  have h6 : (strChars "command").length = 9 := rfl
  omega

/-- C7: decoding the bytes produced by `encode` recovers the original
structured record exactly: `json.loads` applied to
`json.dumps({'command': [name, *args]}) + '\n'` returns that record, for
every command name and all representable (string / integer / float /
boolean) arguments. -/
theorem C7_encode_decode_roundtrip (command : String) (args : List Arg) :
    jsonLoads (encode command args) = some (cmdJson command args) := by
  have hdata : (encode command args).data
      = rjson (cmdJson command args) ++ ['\n'] := rfl
  rw [jsonLoads, hdata]
  have hlen : (rjson (cmdJson command args) ++ ['\n']).length
      = (rjson (cmdJson command args)).length + 1 := by simp
  rw [hlen]
  have hsize : jsize (cmdJson command args)
      ≤ (rjson (cmdJson command args)).length + 1 + 1 := by
    have := jsize_cmdJson_le command args
    omega
  rw [(parse_render_all ((rjson (cmdJson command args)).length + 1 + 1)).1
    (cmdJson command args) ['\n'] hsize ⟨by decide, by decide⟩]
  rfl

/-- C5: for every command name and representable arguments, `encode`
produces exactly the rendering of the structured record
`{"command": [name, arg1, ...]}` followed by a newline; the record body
contains no newline, so the message is terminated by that single newline;
and `encode` is deterministic (equal commands encode to equal bytes). -/
theorem C5_encode_shape_deterministic (command : String) (args : List Arg) :
    encode command args = Json.render (cmdJson command args) ++ "\n" ∧
    ((encode command args).data = rjson (cmdJson command args) ++ ['\n'] ∧
      '\n' ∉ rjson (cmdJson command args)) ∧
    (∀ (command2 : String) (args2 : List Arg),
      command = command2 → args = args2 →
      encode command args = encode command2 args2) := by
  refine ⟨?_, ⟨rfl, rjson_cmdJson_no_newline command args⟩, ?_⟩
  · show String.mk (rjson (cmdJson command args) ++ ['\n'])
        = String.mk (rjson (cmdJson command args)) ++ "\n"
    rfl
  · intro command2 args2 h1 h2
    rw [h1, h2]

/-- Witness for C5 at the concrete `stop` command. -/
theorem C5_witness :
    encode "stop" [] = Json.render (cmdJson "stop" []) ++ "\n" :=
  (C5_encode_shape_deterministic "stop" []).1

/-- C1: with the controller Disconnected and the socket endpoint path
missing, `execute(command)` (that is, `send_command`) returns `None`
immediately, with no send and no receive (not even a `socket.connect`
attempt, since `os.path.exists` already fails), and the controller state
is unchanged, hence still Disconnected. -/
theorem C1_unavailable_when_socket_missing (c : Ctrl) (t : Transport)
    (command : String) (args : List Arg)
    (hc : c.connected = false) (hp : t.pathExists = false) :
    MPVController.send_command c t command args = (none, c, []) := by
  simp [MPVController.send_command, MPVController.connect, hc, hp]

/-- Witness for C1 at a concrete disconnected controller and missing
socket path. -/
theorem C1_witness :
    MPVController.send_command ⟨false⟩ ⟨false, true, true, some ""⟩ "stop" []
      = (none, ⟨false⟩, []) :=
  C1_unavailable_when_socket_missing ⟨false⟩ ⟨false, true, true, some ""⟩
    "stop" [] rfl rfl

/-- C2 counterexample: while Connected, a receive that returns empty (the
peer closed) makes `send_command` return `None`, but the controller state
remains Connected — it does not transition to Disconnected as the claim
states, because `json.loads(response) if response else None` returns
before the `except` handler that clears `self.connected` is reached. -/
theorem C2_counterexample :
    (MPVController.send_command ⟨true⟩ ⟨true, true, true, some ""⟩
        "get_property" [Arg.str "time-pos"]).1 = none ∧
    (MPVController.send_command ⟨true⟩ ⟨true, true, true, some ""⟩
        "get_property" [Arg.str "time-pos"]).2.1.connected = true :=
  ⟨rfl, rfl⟩

/-- C2 amended: while Connected, if the receive step raises an error,
`send_command` returns `None` and the state transitions to Disconnected
(so the next call re-attempts connect); but if the receive returns empty
(peer closed), `send_command` returns `None` while the state remains
Connected, and the next call does not re-attempt connect. -/
theorem C2_amended_receive_failure (c : Ctrl) (t : Transport)
    (command : String) (args : List Arg)
    (hc : c.connected = true) (hs : t.sendOk = true) :
    (t.recvResult = none →
      MPVController.send_command c t command args
        = (none, ⟨false⟩, [Ev.send (encode command args), Ev.recv])) ∧
    (t.recvResult = some "" →
      MPVController.send_command c t command args
        = (none, c, [Ev.send (encode command args), Ev.recv]) ∧
      (MPVController.send_command c t command args).2.1.connected = true) := by
  constructor
  · intro hr
    simp [MPVController.send_command, MPVController.send_body, hc, hs, hr]
  · intro hr
    refine ⟨?_, ?_⟩ <;>
      simp [MPVController.send_command, MPVController.send_body, hc, hs, hr]

/-- Witness for C2 (amended), at a concrete connected controller whose
receive raises. -/
theorem C2_witness :
    MPVController.send_command ⟨true⟩ ⟨true, true, true, none⟩ "stop" []
      = (none, ⟨false⟩, [Ev.send (encode "stop" []), Ev.recv]) :=
  (C2_amended_receive_failure ⟨true⟩ ⟨true, true, true, none⟩ "stop" []
    rfl rfl).1 rfl

/-- C3 counterexample: while Connected, a response that fails to decode
("not json") makes `send_command` return `None` and transition the
controller to Disconnected — the claim's "state remains Connected" is
false, because the `JSONDecodeError` is caught by the same `except`
handler as transport errors, which sets `self.connected = False`. -/
theorem C3_counterexample :
    (MPVController.send_command ⟨true⟩ ⟨true, true, true, some "not json"⟩
        "get_property" [Arg.str "volume"]).1 = none ∧
    (MPVController.send_command ⟨true⟩ ⟨true, true, true, some "not json"⟩
        "get_property" [Arg.str "volume"]).2.1 = ⟨false⟩ :=
  ⟨rfl, rfl⟩

/-- C3 amended: while Connected, if the response bytes are received but
fail to decode, `send_command` returns `None` and the controller
transitions to Disconnected: a decode failure is treated exactly like a
transport failure. -/
theorem C3_amended_decode_failure_disconnects (c : Ctrl) (t : Transport)
    (command : String) (args : List Arg) (resp : String)
    (hc : c.connected = true) (hs : t.sendOk = true)
    (hr : t.recvResult = some resp) (hne : resp ≠ "")
    (hj : jsonLoads resp = none) :
    MPVController.send_command c t command args
      = (none, ⟨false⟩, [Ev.send (encode command args), Ev.recv]) := by
  simp [MPVController.send_command, MPVController.send_body, hc, hs, hr,
    hne, hj]

/-- Witness for C3 (amended) at the concrete malformed response
"not json". -/
theorem C3_witness :
    MPVController.send_command ⟨true⟩ ⟨true, true, true, some "not json"⟩
        "seek" [Arg.int 10]
      = (none, ⟨false⟩, [Ev.send (encode "seek" [Arg.int 10]), Ev.recv]) :=
  C3_amended_decode_failure_disconnects ⟨true⟩
    ⟨true, true, true, some "not json"⟩ "seek" [Arg.int 10] "not json"
    rfl rfl rfl (by decide) rfl

/-- C4 counterexample: `set_volume(150)` does not fail at the facade and
does contact the transport: with a connected controller it writes the
encoded `set_property` command for volume 150 to the socket (one send and
one receive), and even returns the player's reply; likewise
`set_volume(-5)` writes the command for volume -5.  There is no range
validation anywhere in the facade. -/
theorem C4_counterexample :
    (MPVController.set_volume ⟨true⟩ ⟨true, true, true, some "\x7b\x7d"⟩
        150).1 = some (Json.obj []) ∧
    (MPVController.set_volume ⟨true⟩ ⟨true, true, true, some "\x7b\x7d"⟩
        150).2.2
      = [Ev.send (encode "set_property" [Arg.str "volume", Arg.int 150]),
         Ev.recv] ∧
    (MPVController.set_volume ⟨true⟩ ⟨true, true, true, some "\x7b\x7d"⟩
        (-5)).2.2
      = [Ev.send (encode "set_property" [Arg.str "volume", Arg.int (-5)]),
         Ev.recv] :=
  ⟨rfl, rfl, rfl⟩

/-- C4 amended: `set_volume` performs no range validation: for every
integer volume — in range or not — it issues the `set_property` command
with arguments `["volume", volume]` through the transport (one send
followed by one receive attempt). -/
theorem C4_amended_no_facade_validation (volume : Int) (c : Ctrl)
    (t : Transport) (hc : c.connected = true) (hs : t.sendOk = true) :
    (MPVController.set_volume c t volume).2.2
      = [Ev.send (encode "set_property" [Arg.str "volume", Arg.int volume]),
         Ev.recv] := by
  cases hr : t.recvResult with
  | none =>
    simp [MPVController.set_volume, MPVController.send_command,
      MPVController.send_body, hc, hs, hr]
  | some resp =>
    by_cases hne : resp = ""
    · simp [MPVController.set_volume, MPVController.send_command,
        MPVController.send_body, hc, hs, hr, hne]
    · cases hj : jsonLoads resp <;>
        simp [MPVController.set_volume, MPVController.send_command,
          MPVController.send_body, hc, hs, hr, hne, hj]

/-- Witness for C4 (amended) at the out-of-range volume 150. -/
theorem C4_witness :
    (MPVController.set_volume ⟨true⟩ ⟨true, true, true, some "\x7b\x7d"⟩
        150).2.2
      = [Ev.send (encode "set_property" [Arg.str "volume", Arg.int 150]),
         Ev.recv] :=
  C4_amended_no_facade_validation 150 ⟨true⟩
    ⟨true, true, true, some "\x7b\x7d"⟩ rfl rfl

/-- C6: whenever the transport accepts the write (whether the controller
was already Connected or connects on demand), `set_volume(50)` writes
exactly one command to the player, and its bytes are the encoding of
the record with command name `set_property` and arguments
`["volume", 50]`, followed by the newline terminator. -/
theorem C6_set_volume_50_single_command (c : Ctrl) (t : Transport)
    (hready : c.connected = true ∨ (t.pathExists = true ∧ t.connectOk = true))
    (hs : t.sendOk = true) :
    (MPVController.set_volume c t 50).2.2.filter Ev.isSend
      = [Ev.send "\x7b\"command\": [\"set_property\", \"volume\", 50]\x7d\n"] := by
  have hb : encode "set_property" [Arg.str "volume", Arg.int 50]
      = "\x7b\"command\": [\"set_property\", \"volume\", 50]\x7d\n" := rfl
  have htr : ∀ (c1 : Ctrl) (tr : List Ev),
      (MPVController.send_body c1 t "set_property"
          [Arg.str "volume", Arg.int 50] tr).2.2
        = tr ++ [Ev.send (encode "set_property" [Arg.str "volume", Arg.int 50]),
                 Ev.recv] := by
    intro c1 tr
    cases hr : t.recvResult with
    | none => simp [MPVController.send_body, hs, hr]
    | some resp =>
      by_cases hne : resp = ""
      · simp [MPVController.send_body, hs, hr, hne]
      · cases hj : jsonLoads resp <;> simp [MPVController.send_body, hs, hr, hne, hj]
  rcases hready with hc | ⟨hp, hco⟩
  · rw [MPVController.set_volume, MPVController.send_command, if_pos hc, htr]
    simp [Ev.isSend, hb]
  · cases hc : c.connected with
    | true =>
      rw [MPVController.set_volume, MPVController.send_command, if_pos hc, htr]
      simp [Ev.isSend, hb]
    | false =>
      rw [MPVController.set_volume, MPVController.send_command, if_neg (by simp [hc]),
        MPVController.connect, if_pos hp, if_pos hco]
      rw [htr]
      simp [Ev.isSend, hb]

/-- Witness for C6 at a concrete connected controller. -/
theorem C6_witness :
    (MPVController.set_volume ⟨true⟩ ⟨true, true, true, some "\x7b\x7d"⟩
        50).2.2.filter Ev.isSend
      = [Ev.send "\x7b\"command\": [\"set_property\", \"volume\", 50]\x7d\n"] :=
  C6_set_volume_50_single_command ⟨true⟩ ⟨true, true, true, some "\x7b\x7d"⟩
    (Or.inl rfl) rfl

/-- C8: when the player replies to `get_property("bogus")` with the
well-formed error record, `execute` returns that decoded record — the
response carrying the player's error, not a transport-level `None` — and
the controller stays Connected. -/
theorem C8_player_error_reply (c : Ctrl) (t : Transport)
    (hc : c.connected = true) (hs : t.sendOk = true)
    (hr : t.recvResult = some "\x7b\"error\": \"property not found\"\x7d") :
    MPVController.get_property c t "bogus"
      = (some (Json.obj [("error", Json.str "property not found")]), c,
         [Ev.send (encode "get_property" [Arg.str "bogus"]), Ev.recv]) ∧
    (MPVController.get_property c t "bogus").2.1.connected = true := by
  have hj : jsonLoads "\x7b\"error\": \"property not found\"\x7d"
      = some (Json.obj [("error", Json.str "property not found")]) := rfl
  have hne : ("\x7b\"error\": \"property not found\"\x7d" : String) ≠ "" := by
    decide
  constructor
  · simp [MPVController.get_property, MPVController.send_command,
      MPVController.send_body, hc, hs, hr, hne, hj]
  · simp [MPVController.get_property, MPVController.send_command,
      MPVController.send_body, hc, hs, hr, hne, hj]

/-- Witness for C8 at a concrete connected controller and the concrete
error reply. -/
theorem C8_witness :
    MPVController.get_property ⟨true⟩
        ⟨true, true, true, some "\x7b\"error\": \"property not found\"\x7d"⟩
        "bogus"
      = (some (Json.obj [("error", Json.str "property not found")]),
         ⟨true⟩,
         [Ev.send (encode "get_property" [Arg.str "bogus"]), Ev.recv]) :=
  (C8_player_error_reply ⟨true⟩
    ⟨true, true, true, some "\x7b\"error\": \"property not found\"\x7d"⟩
    rfl rfl rfl).1

/-- C9 counterexample: three different failure conditions — the socket
endpoint missing (Unavailable), a send failure (TransportFailure), and a
malformed response (ProtocolError) — all produce the identical untyped
result `None`.  The failure paths therefore do not name their condition,
refuting the claim that every failure propagates as a typed result. -/
theorem C9_counterexample :
    (MPVController.send_command ⟨false⟩ ⟨false, false, false, none⟩
        "stop" []).1 = none ∧
    (MPVController.send_command ⟨true⟩ ⟨true, true, false, none⟩
        "stop" []).1 = none ∧
    (MPVController.send_command ⟨true⟩ ⟨true, true, true, some "garbage"⟩
        "stop" []).1 = none :=
  ⟨rfl, rfl, rfl⟩

/-- C9 amended: `execute` never raises — every failure path returns a
value to the caller — but the value is the same untyped `None` for a
missing endpoint, a send failure, and a decode failure alike, and the
client layer is then told `{success: false, command: name}` with no
reason naming the condition. -/
theorem C9_amended_untyped_failures :
    (∀ (c : Ctrl) (t : Transport) (command : String) (args : List Arg),
      c.connected = false → t.pathExists = false →
      (MPVController.send_command c t command args).1 = none) ∧
    (∀ (c : Ctrl) (t : Transport) (command : String) (args : List Arg),
      c.connected = true → t.sendOk = false →
      (MPVController.send_command c t command args).1 = none) ∧
    (∀ (c : Ctrl) (t : Transport) (command : String) (args : List Arg)
      (resp : String),
      c.connected = true → t.sendOk = true → t.recvResult = some resp →
      jsonLoads resp = none → resp ≠ "" →
      (MPVController.send_command c t command args).1 = none) ∧
    (∀ (c : Ctrl) (t : Transport) (command : String) (args : MsgArgs),
      (handle_mpv_command c t command args).result = none →
      (handle_mpv_command c t command args).commandResult
        = ⟨false, command⟩) := by
  refine ⟨?_, ?_, ?_, ?_⟩
  · intro c t command args hc hp
    simp [MPVController.send_command, MPVController.connect, hc, hp]
  · intro c t command args hc hs
    simp [MPVController.send_command, MPVController.send_body, hc, hs]
  · intro c t command args resp hc hs hr hj hne
    simp [MPVController.send_command, MPVController.send_body, hc, hs, hr,
      hne, hj]
  · intro c t command args h
    have hcr : (handle_mpv_command c t command args).commandResult
        = ⟨(handle_mpv_command c t command args).result.isSome, command⟩ := rfl
    rw [hcr, h]
    rfl

/-- Witness for C9 (amended): a missing endpoint yields `None`, and a
handler invocation whose controller call failed reports
`{success: false, command: "pause"}`. -/
theorem C9_witness :
    (MPVController.send_command ⟨false⟩ ⟨false, true, true, none⟩
        "pause" []).1 = none ∧
    (handle_mpv_command ⟨false⟩ ⟨false, true, true, none⟩ "pause"
        ⟨none, none, none⟩).commandResult = ⟨false, "pause"⟩ :=
  ⟨C9_amended_untyped_failures.1 ⟨false⟩ ⟨false, true, true, none⟩
      "pause" [] rfl rfl,
   C9_amended_untyped_failures.2.2.2 ⟨false⟩ ⟨false, true, true, none⟩
      "pause" ⟨none, none, none⟩ rfl⟩

/-- C10: the `command_result` emitted to clients always has
`success = (the controller returned a non-None decoded response)`; in
particular, when the player replies with the decoded error record
`{"error": "property not found"}` to a `pause` command, clients are told
`success: true` even though the player reported a failure. -/
theorem C10_success_reflects_nonempty_response :
    (∀ (c : Ctrl) (t : Transport) (command : String) (args : MsgArgs),
      (handle_mpv_command c t command args).commandResult
        = ⟨(handle_mpv_command c t command args).result.isSome, command⟩) ∧
    (handle_mpv_command ⟨true⟩
        ⟨true, true, true, some "\x7b\"error\": \"property not found\"\x7d"⟩
        "pause" ⟨none, none, none⟩).commandResult.success = true :=
  ⟨fun _ _ _ _ => rfl, rfl⟩

end PlaySV
